import Mathlib

/-!
Shallow embedding of the JavaScript lexer in `JSLexer.cpp`.

The C++ program is a hand-written scanner: a driver loop (`Lexer::tokenize`)
that skips whitespace, classifies the next character, and delegates to one of
six finite-state recognizers (`readIdentifierFA`, `readNumberFA`,
`readStringFA`, `readCommentFA`, `readOperatorFA`, `readPunctuation`).
Each recognizer is embedded below as a recursive function over the remaining
input (a `List Char`), threading the cursor's `line` and `col` counters
exactly as the C++ mutates them.  Errors (C++ `throw std::runtime_error`)
become an `Except LexError` result.  The driver loop is embedded with explicit
fuel so that its termination is a provable theorem rather than an assumption.
The optional trace output (`printToken`, called by five of the recognizers
when the `trace` flag is set) is modelled as a log of tokens accumulated by
the driver at exactly the call sites where the C++ calls `printToken`.
-/

namespace JSLexer

/-! Character classification, mirroring the `<cctype>` functions the C++ uses
(ASCII range; `isspace` accepts space and the control characters 9 to 13). -/

def isspace (c : Char) : Bool := c.toNat == 32 || (9 ≤ c.toNat && c.toNat ≤ 13)

def isdigit (c : Char) : Bool := 48 ≤ c.toNat && c.toNat ≤ 57

def isalpha (c : Char) : Bool :=
  (97 ≤ c.toNat && c.toNat ≤ 122) || (65 ≤ c.toNat && c.toNat ≤ 90)

def isalnum (c : Char) : Bool := isalpha c || isdigit c

/-- Membership in the operator-start character set `+-*/=<>!&|^%`
(`Lexer::isOperatorChar`). -/
def isOperatorChar (c : Char) : Bool := "+-*/=<>!&|^%".data.contains c

/-- Membership in the punctuation character set (`Lexer::isPunctuation`);
the set is `( ) { } [ ] , ; .` written with escaped braces. -/
def isPunctuation (c : Char) : Bool := "()\x7b\x7d[],;.".data.contains c

/-! The token data model (`enum class TokenType` and `struct Token`). -/

inductive TokenType where
  | Keyword | Identifier | Number
  | Operator | String | Comment | Punctuation
  | EndOfFile
deriving DecidableEq, Repr

structure Token where
  type : TokenType
  lexeme : List Char
  line : Nat
  col : Nat
deriving DecidableEq, Repr

/-- The distinct `std::runtime_error` messages thrown by the recognizers, as a
tagged error type carrying the line/column the message reports. -/
inductive LexError where
  | MalformedNumber (line col : Nat)
  | LeadingZero (line col : Nat)
  | InvalidTrailing (line col : Nat)
  | MalformedExponent (line col : Nat)
  | UnterminatedString (line col : Nat)
  | UnexpectedSlash (line col : Nat)
  | UnterminatedComment (line col : Nat)
  | UnknownOperator (line col : Nat)
deriving DecidableEq, Repr

/-- The fixed keyword set of the lexer (`Lexer::keywords`). -/
def keywords : List (List Char) :=
  ["var", "if", "else", "function", "return", "let", "const", "while"].map String.data

/-! Identifier / keyword recognizer (`Lexer::readIdentifierFA`).
The C++ loop has states START, IDENT, ACCEPT; START consumes the first
letter/underscore/dollar, IDENT consumes the alphanumeric body, ACCEPT
returns.  `identBody` is the IDENT state. -/

def identBody : List Char → List Char → Nat → (List Char × List Char × Nat)
  | [], buf, col => (buf, [], col)
  | c :: rest, buf, col =>
    if isalnum c || c == '_' || c == '$' then identBody rest (buf ++ [c]) (col + 1)
    else (buf, c :: rest, col)

def readIdentifierFA (line col : Nat) : List Char → (Token × List Char × Nat × Nat)
  | [] => (⟨.Identifier, [], line, col⟩, [], line, col)
  | c :: rest =>
    if isalpha c || c == '_' || c == '$' then
      let res := identBody rest [c] (col + 1)
      let ty := if keywords.contains res.1 then TokenType.Keyword else TokenType.Identifier
      (⟨ty, res.1, line, col⟩, res.2.1, line, res.2.2)
    else
      (⟨.Identifier, [], line, col⟩, c :: rest, line, col)

/-! Number recognizer (`Lexer::readNumberFA`): a DFA with states
START, SIGN, ZERO, INT_PART, DOT, FRAC_PART, EXP, EXP_SIGN, EXP_NUM.
`numStep` is the per-state transition on one character; `runNum` is the
`while (pos < input.size())` loop, which exits at end of input in whatever
state it is in and falls through to the `done:` label (the C++ performs no
accepting-state check there). -/

inductive NState where
  | START | SIGN | ZERO | INT_PART | DOT | FRAC_PART
  | EXP | EXP_SIGN | EXP_NUM
deriving DecidableEq, Repr

inductive NRes where
  | consume (s : NState)
  | accept
  | errNum
  | errZero
  | errExp
deriving DecidableEq, Repr

def numStep : NState → Char → NRes
  | .START, c =>
    if c == '+' || c == '-' then .consume .SIGN
    else if c == '0' then .consume .ZERO
    else if isdigit c then .consume .INT_PART
    else .accept
  | .SIGN, c =>
    if c == '0' then .consume .ZERO
    else if isdigit c then .consume .INT_PART
    else .errNum
  | .ZERO, c =>
    if isdigit c then .errZero
    else if c == '.' then .consume .DOT
    else if c == 'e' || c == 'E' then .consume .EXP
    else .accept
  | .INT_PART, c =>
    if isdigit c then .consume .INT_PART
    else if c == '.' then .consume .DOT
    else if c == 'e' || c == 'E' then .consume .EXP
    else .accept
  | .DOT, c =>
    if isdigit c then .consume .FRAC_PART
    else .errNum
  | .FRAC_PART, c =>
    if isdigit c then .consume .FRAC_PART
    else if c == 'e' || c == 'E' then .consume .EXP
    else .accept
  | .EXP, c =>
    if c == '+' || c == '-' then .consume .EXP_SIGN
    else if isdigit c then .consume .EXP_NUM
    else .errExp
  | .EXP_SIGN, c =>
    if isdigit c then .consume .EXP_NUM
    else .errExp
  | .EXP_NUM, c =>
    if isdigit c then .consume .EXP_NUM
    else .accept

def runNum (line startCol : Nat) : NState → List Char → List Char → Nat →
    Except LexError (List Char × List Char × Nat)
  | _, [], buf, col => .ok (buf, [], col)
  | st, c :: rest, buf, col =>
    match numStep st c with
    | .consume st' => runNum line startCol st' rest (buf ++ [c]) (col + 1)
    | .accept => .ok (buf, c :: rest, col)
    | .errNum => .error (.MalformedNumber line startCol)
    | .errZero => .error (.LeadingZero line startCol)
    | .errExp => .error (.MalformedExponent line startCol)

/-- The whole of `readNumberFA`: run the DFA from START, then apply the
post-check at `done:` rejecting an immediately following identifier-class
character. -/
def readNumberFA (line col : Nat) (input : List Char) :
    Except LexError (Token × List Char × Nat × Nat) :=
  match runNum line col .START input [] col with
  | .error e => .error e
  | .ok (buf, rest, col') =>
    match rest with
    | c :: _ =>
      if isalnum c || c == '_' || c == '$' then .error (.InvalidTrailing line col)
      else .ok (⟨.Number, buf, line, col⟩, rest, line, col')
    | [] => .ok (⟨.Number, buf, line, col⟩, [], line, col')

/-! String recognizer (`Lexer::readStringFA`).  The opening quote is consumed
before the loop; `runStr` is the loop over states IN_STRING and ESCAPE
(ESCAPE unconditionally consumes one character, with `col++` even for a
newline, exactly as the C++ does).  Reaching end of input in IN_STRING or
ESCAPE falls to `done:` where `state != ACCEPT` raises the unterminated-string
error; the backslash character is written via its code 92. -/

inductive SState where
  | IN_STRING | ESCAPE
deriving DecidableEq, Repr

def runStr (quote : Char) (line startCol : Nat) : SState → List Char → List Char → Nat →
    Except LexError (List Char × List Char × Nat)
  | _, [], _, _ => .error (.UnterminatedString line startCol)
  | .IN_STRING, c :: rest, buf, col =>
    if c.toNat == 92 then runStr quote line startCol .ESCAPE rest (buf ++ [c]) (col + 1)
    else if c == quote then .ok (buf ++ [c], rest, col + 1)
    else if c == '\n' then .error (.UnterminatedString line startCol)
    else runStr quote line startCol .IN_STRING rest (buf ++ [c]) (col + 1)
  | .ESCAPE, c :: rest, buf, col =>
    runStr quote line startCol .IN_STRING rest (buf ++ [c]) (col + 1)

def readStringFA (line col : Nat) (quote : Char) (rest : List Char) :
    Except LexError (Token × List Char × Nat × Nat) :=
  match runStr quote line col .IN_STRING rest [quote] (col + 1) with
  | .error e => .error e
  | .ok (buf, rest', col') => .ok (⟨.String, buf, line, col⟩, rest', line, col')

/-! Comment recognizer (`Lexer::readCommentFA`).  The initial `/` is consumed
before the loop; `runCom` is the loop over states SLASH, SINGLE, MULTI, STAR.
A newline consumed in MULTI or STAR increments `line` and resets `col` to 1.
Reaching end of input in any of these states falls to `done:` where
`state != ACCEPT` raises the unterminated-comment error (this includes the
SINGLE state).  The returned token records the current, possibly advanced,
`line` together with the starting column. -/

inductive CState where
  | SLASH | SINGLE | MULTI | STAR
deriving DecidableEq, Repr

def runCom (startCol : Nat) : CState → List Char → List Char → Nat → Nat →
    Except LexError (List Char × List Char × Nat × Nat)
  | _, [], _, line, _ => .error (.UnterminatedComment line startCol)
  | st, c :: rest, buf, line, col =>
    match st with
    | .SLASH =>
      if c == '/' then runCom startCol .SINGLE rest (buf ++ [c]) line (col + 1)
      else if c == '*' then runCom startCol .MULTI rest (buf ++ [c]) line (col + 1)
      else .error (.UnexpectedSlash line startCol)
    | .SINGLE =>
      if c == '\n' then .ok (buf, c :: rest, line, col)
      else runCom startCol .SINGLE rest (buf ++ [c]) line (col + 1)
    | .MULTI =>
      if c == '*' then runCom startCol .STAR rest (buf ++ [c]) line (col + 1)
      else if c == '\n' then runCom startCol .MULTI rest (buf ++ [c]) (line + 1) 1
      else runCom startCol .MULTI rest (buf ++ [c]) line (col + 1)
    | .STAR =>
      if c == '/' then .ok (buf ++ [c], rest, line, col + 1)
      else if c == '*' then runCom startCol .STAR rest (buf ++ [c]) line (col + 1)
      else if c == '\n' then runCom startCol .MULTI rest (buf ++ [c]) (line + 1) 1
      else runCom startCol .MULTI rest (buf ++ [c]) line (col + 1)

def readCommentFA (line col : Nat) (rest : List Char) :
    Except LexError (Token × List Char × Nat × Nat) :=
  match runCom col .SLASH rest ['/'] line (col + 1) with
  | .error e => .error e
  | .ok (buf, rest', line', col') => .ok (⟨.Comment, buf, line', col⟩, rest', line', col')

/-! Operator recognizer (`Lexer::readOperatorFA`): a maximal-munch DFA over
the peek/advance chain of the C++, written as nested matches on the characters
following the first one.  `opTok` builds the result: the C++ advances `col`
once per consumed character and leaves `line` unchanged. -/

def opTok (line col : Nat) (buf : List Char) (rest : List Char) :
    Except LexError (Token × List Char × Nat × Nat) :=
  .ok (⟨.Operator, buf, line, col⟩, rest, line, col + buf.length)

def readOperatorFA (line col : Nat) (c : Char) (rest : List Char) :
    Except LexError (Token × List Char × Nat × Nat) :=
  if c == '=' then
    match rest with
    | '=' :: '=' :: r => opTok line col ['=', '=', '='] r
    | '=' :: r => opTok line col ['=', '='] r
    | r => opTok line col ['='] r
  else if c == '!' then
    match rest with
    | '=' :: '=' :: r => opTok line col ['!', '=', '='] r
    | '=' :: r => opTok line col ['!', '='] r
    | r => opTok line col ['!'] r
  else if c == '<' then
    match rest with
    | '<' :: r => opTok line col ['<', '<'] r
    | '=' :: r => opTok line col ['<', '='] r
    | r => opTok line col ['<'] r
  else if c == '>' then
    match rest with
    | '>' :: '>' :: '=' :: r => opTok line col ['>', '>', '>', '='] r
    | '>' :: '>' :: r => opTok line col ['>', '>', '>'] r
    | '>' :: '=' :: r => opTok line col ['>', '>', '='] r
    | '>' :: r => opTok line col ['>', '>'] r
    | '=' :: r => opTok line col ['>', '='] r
    | r => opTok line col ['>'] r
  else if c == '&' then
    match rest with
    | '&' :: r => opTok line col ['&', '&'] r
    | r => opTok line col ['&'] r
  else if c == '|' then
    match rest with
    | '|' :: r => opTok line col ['|', '|'] r
    | r => opTok line col ['|'] r
  else if "+-*/%^".data.contains c then
    opTok line col [c] rest
  else .error (.UnknownOperator line col)

/-- Punctuation recognizer (`Lexer::readPunctuation`): consumes exactly one
character; note that it does not call `printToken`. -/
def readPunctuation (line col : Nat) (c : Char) (rest : List Char) :
    (Token × List Char × Nat × Nat) :=
  (⟨.Punctuation, [c], line, col⟩, rest, line, col + 1)

/-! The driver (`Lexer::tokenize`). -/

/-- The whitespace-skipping inner loop of the driver: a newline increments
`line` and resets `col` to 1, any other whitespace increments `col`. -/
def skipWs : List Char → Nat → Nat → (List Char × Nat × Nat)
  | [], line, col => ([], line, col)
  | c :: rest, line, col =>
    if isspace c then
      if c == '\n' then skipWs rest (line + 1) 1
      else skipWs rest line (col + 1)
    else (c :: rest, line, col)

def eofTok (line col : Nat) : Token := ⟨.EndOfFile, [], line, col⟩

def firstIsDigit : List Char → Bool
  | d :: _ => isdigit d
  | [] => false

/-- The driver's lookahead test for a comment start: a `/` or `*` directly
after the current `/`. -/
def nextStartsComment : List Char → Bool
  | d :: _ => d == '/' || d == '*'
  | [] => false

/-- Step the driver past one produced token: on a recognizer error the whole
call aborts; on success the token is appended to the output, and also to the
trace log when `trace` is set and the recognizer is one of the five that call
`printToken` (`doLog`). -/
def afterTok (trace doLog : Bool)
    (cont : List Char → Nat → Nat → List Token → List Token →
      Option (Except LexError (List Token × List Token)))
    (r : Except LexError (Token × List Char × Nat × Nat))
    (toks log : List Token) : Option (Except LexError (List Token × List Token)) :=
  match r with
  | .error e => some (.error e)
  | .ok (t, rem, line, col) =>
    cont rem line col (toks ++ [t]) (if trace && doLog then log ++ [t] else log)

/-- One iteration of the driver loop after whitespace has been skipped:
the lookahead classification of `Lexer::tokenize`, in the source's order.
An unrecognized character is silently skipped (`++pos; ++col`). -/
def dispatch (trace : Bool)
    (cont : List Char → Nat → Nat → List Token → List Token →
      Option (Except LexError (List Token × List Token)))
    (rem : List Char) (line col : Nat) (toks log : List Token) :
    Option (Except LexError (List Token × List Token)) :=
  match rem with
  | [] => some (.ok (toks ++ [eofTok line col], log))
  | c :: rest =>
    if (c == '+' || c == '-') && firstIsDigit rest then
      afterTok trace true cont (readNumberFA line col (c :: rest)) toks log
    else if isdigit c then
      afterTok trace true cont (readNumberFA line col (c :: rest)) toks log
    else if isalpha c || c == '_' || c == '$' then
      afterTok trace true cont (.ok (readIdentifierFA line col (c :: rest))) toks log
    else if c == '"' || c.toNat == 39 then
      afterTok trace true cont (readStringFA line col c rest) toks log
    else if c == '/' && nextStartsComment rest then
      afterTok trace true cont (readCommentFA line col rest) toks log
    else if isOperatorChar c then
      afterTok trace true cont (readOperatorFA line col c rest) toks log
    else if isPunctuation c then
      afterTok trace false cont (.ok (readPunctuation line col c rest)) toks log
    else
      cont rest line (col + 1) toks log

/-- The driver loop with explicit fuel; `none` means the fuel ran out (shown
below never to happen when the fuel exceeds the input length). -/
def loopFA (trace : Bool) : Nat → List Char → Nat → Nat → List Token → List Token →
    Option (Except LexError (List Token × List Token))
  | 0, _, _, _, _, _ => none
  | fuel + 1, rem, line, col, toks, log =>
    match skipWs rem line col with
    | (rem', line', col') => dispatch trace (loopFA trace fuel) rem' line' col' toks log

/-- `Lexer::tokenize` over an in-memory character list: cursor starts at line
1, column 1; the result carries the token sequence and the trace log. -/
def tokenizeFA (src : List Char) (trace : Bool) :
    Option (Except LexError (List Token × List Token)) :=
  loopFA trace (src.length + 1) src 1 1 [] []

/-- Entry point over a Lean string (the C++ constructor stores the source
string; `tokenize` then scans it). -/
def tokenize (src : String) (trace : Bool) :
    Option (Except LexError (List Token × List Token)) :=
  tokenizeFA src.data trace

/-- The token sequence alone (trace off), for stating claims about output. -/
def tokenizeTokens (src : String) : Option (Except LexError (List Token)) :=
  (tokenize src false).map (Except.map Prod.fst)

/-- Projection of a driver result onto its token sequence. -/
def toksPart (r : Option (Except LexError (List Token × List Token))) :
    Option (Except LexError (List Token)) :=
  r.map (Except.map Prod.fst)

/-- A token is traced exactly when its producing code path calls `printToken`:
every kind except Punctuation and EndOfFile. -/
def traced (t : Token) : Bool :=
  !(t.type == .Punctuation || t.type == .EndOfFile)

/-- Number of newline characters in a character list (used to state the
line-counting facts about the comment recognizer). -/
def countNl : List Char → Nat
  | [] => 0
  | c :: rest => (if c == '\n' then 1 else 0) + countNl rest

/-! Helper lemmas about the embedding, shared by the claim theorems below. -/

theorem countNl_append (l₁ l₂ : List Char) : countNl (l₁ ++ l₂) = countNl l₁ + countNl l₂ := by
  induction l₁ with
  | nil => simp [countNl]
  | cons c rest ih => simp [countNl, ih]; omega

theorem skipWs_len (rem : List Char) : ∀ line col, (skipWs rem line col).1.length ≤ rem.length := by
  induction rem with
  | nil => intro line col; simp [skipWs]
  | cons c rest ih =>
    intro line col
    simp only [skipWs]
    split
    · split
      · exact le_trans (ih (line + 1) 1) (by simp)
      · exact le_trans (ih line (col + 1)) (by simp)
    · simp

theorem identBody_len (input : List Char) :
    ∀ buf col, (identBody input buf col).2.1.length ≤ input.length := by
  induction input with
  | nil => intro buf col; simp [identBody]
  | cons c rest ih =>
    intro buf col
    simp only [identBody]
    split
    · exact le_trans (ih (buf ++ [c]) (col + 1)) (by simp)
    · simp

theorem runNum_len (input : List Char) :
    ∀ (st : NState) (buf : List Char) (line startCol col : Nat)
      (buf' rest' : List Char) (col' : Nat),
    runNum line startCol st input buf col = .ok (buf', rest', col') →
    rest'.length ≤ input.length := by
  induction input with
  | nil =>
    intro st buf line sc col b r c h
    simp only [runNum, Except.ok.injEq, Prod.mk.injEq] at h
    obtain ⟨-, h2, -⟩ := h
    subst h2
    simp
  | cons ch rest ih =>
    intro st buf line sc col b r c h
    simp only [runNum] at h
    cases hs : numStep st ch with
    | consume st' =>
      simp only [hs] at h
      exact le_trans (ih _ _ _ _ _ _ _ _ h) (by simp)
    | accept =>
      simp only [hs, Except.ok.injEq, Prod.mk.injEq] at h
      obtain ⟨-, h2, -⟩ := h
      subst h2
      simp
    | errNum => simp [hs] at h
    | errZero => simp [hs] at h
    | errExp => simp [hs] at h

theorem runStr_len (q : Char) (line sc : Nat) (input : List Char) :
    ∀ (st : SState) (buf : List Char) (col : Nat) (b r : List Char) (c : Nat),
      runStr q line sc st input buf col = .ok (b, r, c) → r.length ≤ input.length := by
  induction input with
  | nil => intro st buf col b r c h; simp [runStr] at h
  | cons ch rest ih =>
    intro st buf col b r c h
    cases st with
    | IN_STRING =>
      simp only [runStr] at h
      split_ifs at h with h1 h2 h3
      · exact le_trans (ih _ _ _ _ _ _ h) (by simp)
      · simp only [Except.ok.injEq, Prod.mk.injEq] at h
        obtain ⟨-, hr2, -⟩ := h
        subst hr2
        simp
      · exact le_trans (ih _ _ _ _ _ _ h) (by simp)
    | ESCAPE =>
      simp only [runStr] at h
      exact le_trans (ih _ _ _ _ _ _ h) (by simp)

theorem runCom_len (input : List Char) :
    ∀ (st : CState) (buf : List Char) (line col startCol : Nat)
      (b r : List Char) (l c : Nat),
      runCom startCol st input buf line col = .ok (b, r, l, c) → r.length ≤ input.length := by
  induction input with
  | nil => intro st buf line col sc b r l c h; simp [runCom] at h
  | cons ch rest ih =>
    intro st buf line col sc b r l c h
    cases st <;> simp only [runCom] at h <;> repeat' split at h
    all_goals first
      | exact le_trans (ih _ _ _ _ _ _ _ _ _ h) (by simp)
      | (simp only [Except.ok.injEq, Prod.mk.injEq] at h
         obtain ⟨-, h2, -, -⟩ := h
         subst h2
         simp)
      | simp at h

theorem runCom_line_count (input : List Char) :
    ∀ (st : CState) (buf : List Char) (line col startCol : Nat)
      (b r : List Char) (l c : Nat),
      runCom startCol st input buf line col = .ok (b, r, l, c) →
      l + countNl buf = line + countNl b := by
  induction input with
  | nil => intro st buf line col sc b r l c h; simp [runCom] at h
  | cons ch rest ih =>
    intro st buf line col sc b r l c h
    cases st <;> simp only [runCom] at h <;> repeat' split at h
    all_goals first
      | (have e := ih _ _ _ _ _ _ _ _ _ h
         simp only [countNl_append, countNl] at e
         simp_all <;> omega)
      | (simp only [Except.ok.injEq, Prod.mk.injEq] at h
         obtain ⟨h1, -, h3, -⟩ := h
         subst h1
         subst h3
         simp_all [countNl_append, countNl])
      | simp at h

theorem runNum_head (input : List Char) :
    ∀ (st : NState) (hd : Char) (bufTl : List Char) (line sc col : Nat)
      (b r : List Char) (c : Nat),
      runNum line sc st input (hd :: bufTl) col = .ok (b, r, c) → b.head? = some hd := by
  induction input with
  | nil =>
    intro st hd tl line sc col b r c h
    simp only [runNum, Except.ok.injEq, Prod.mk.injEq] at h
    obtain ⟨h1, -, -⟩ := h
    subst h1
    simp
  | cons ch rest ih =>
    intro st hd tl line sc col b r c h
    simp only [runNum] at h
    cases hs : numStep st ch with
    | consume st' =>
      simp only [hs, List.cons_append] at h
      exact ih _ _ _ _ _ _ _ _ _ h
    | accept =>
      simp only [hs, Except.ok.injEq, Prod.mk.injEq] at h
      obtain ⟨h1, -, -⟩ := h
      subst h1
      simp
    | errNum => simp [hs] at h
    | errZero => simp [hs] at h
    | errExp => simp [hs] at h

theorem numStart_consume (ch : Char)
    (hc : (isdigit ch || (ch == '+' || ch == '-')) = true) :
    ∃ st', numStep .START ch = .consume st' := by
  by_cases h1 : (ch == '+' || ch == '-') = true
  · exact ⟨.SIGN, by simp [numStep, h1]⟩
  · by_cases h2 : (ch == '0') = true
    · exact ⟨.ZERO, by simp [numStep, h1, h2]⟩
    · have h3 : isdigit ch = true := by simp [h1] at hc; exact hc
      exact ⟨.INT_PART, by simp [numStep, h1, h2, h3]⟩

theorem readNumberFA_len (line col : Nat) (ch : Char) (rest : List Char) (t : Token)
    (rem : List Char) (l c : Nat)
    (hc : (isdigit ch || (ch == '+' || ch == '-')) = true)
    (h : readNumberFA line col (ch :: rest) = .ok (t, rem, l, c)) :
    rem.length ≤ rest.length := by
  obtain ⟨st', hs⟩ := numStart_consume ch hc
  simp only [readNumberFA] at h
  have hstep : runNum line col .START (ch :: rest) [] col =
      runNum line col st' rest [ch] (col + 1) := by
    simp [runNum, hs]
  rw [hstep] at h
  cases hr : runNum line col st' rest [ch] (col + 1) with
  | error e => simp [hr] at h
  | ok v =>
    obtain ⟨b, r, c'⟩ := v
    simp only [hr] at h
    have hlen := runNum_len rest st' [ch] line col (col + 1) b r c' hr
    cases r with
    | nil =>
      simp only [Except.ok.injEq, Prod.mk.injEq] at h
      obtain ⟨-, h2, -⟩ := h
      subst h2
      simp
    | cons d tl =>
      split at h
      · split at h
        · exact Except.noConfusion h
        · simp only [Except.ok.injEq, Prod.mk.injEq] at h
          obtain ⟨-, h2, -⟩ := h
          subst h2
          exact hlen
      · rename_i heq
        exact absurd heq (by simp)

theorem readNumberFA_ok (line col : Nat) (input : List Char) (t : Token)
    (rem : List Char) (l c : Nat)
    (h : readNumberFA line col input = .ok (t, rem, l, c)) :
    t.type = .Number ∧ t.line = line ∧ t.col = col ∧ l = line := by
  simp only [readNumberFA] at h
  cases hr : runNum line col .START input [] col with
  | error e => simp [hr] at h
  | ok v =>
    obtain ⟨b, r, c'⟩ := v
    simp only [hr] at h
    cases r with
    | nil =>
      simp only [Except.ok.injEq, Prod.mk.injEq] at h
      obtain ⟨h1, -, h3, -⟩ := h
      subst h1
      subst h3
      exact ⟨rfl, rfl, rfl, rfl⟩
    | cons d tl =>
      split at h
      · split at h
        · exact Except.noConfusion h
        · simp only [Except.ok.injEq, Prod.mk.injEq] at h
          obtain ⟨h1, -, h3, -⟩ := h
          subst h1
          subst h3
          exact ⟨rfl, rfl, rfl, rfl⟩
      · rename_i heq
        exact absurd heq (by simp)

theorem readNumberFA_sign (line col : Nat) (s d : Char) (r : List Char) (t : Token)
    (rem : List Char) (l c : Nat)
    (hs : (s == '+' || s == '-') = true)
    (h : readNumberFA line col (s :: d :: r) = .ok (t, rem, l, c)) :
    t.lexeme.head? = some s := by
  simp only [readNumberFA] at h
  have hstep : runNum line col .START (s :: d :: r) [] col =
      runNum line col .SIGN (d :: r) [s] (col + 1) := by
    simp [runNum, numStep, hs]
  rw [hstep] at h
  cases hr : runNum line col .SIGN (d :: r) [s] (col + 1) with
  | error e => simp [hr] at h
  | ok v =>
    obtain ⟨b, rr, c'⟩ := v
    simp only [hr] at h
    have hh := runNum_head (d :: r) .SIGN s [] line col (col + 1) b rr c' hr
    cases rr with
    | nil =>
      simp only [Except.ok.injEq, Prod.mk.injEq] at h
      obtain ⟨h1, -⟩ := h
      subst h1
      exact hh
    | cons dd tl =>
      split at h
      · split at h
        · exact Except.noConfusion h
        · simp only [Except.ok.injEq, Prod.mk.injEq] at h
          obtain ⟨h1, -⟩ := h
          subst h1
          exact hh
      · rename_i heq
        exact absurd heq (by simp)

theorem readIdentifierFA_ok (line col : Nat) (input : List Char) :
    ((readIdentifierFA line col input).1.type = .Keyword ∨
      (readIdentifierFA line col input).1.type = .Identifier) ∧
    (readIdentifierFA line col input).1.line = line ∧
    (readIdentifierFA line col input).1.col = col ∧
    (readIdentifierFA line col input).2.2.1 = line := by
  cases input with
  | nil => simp [readIdentifierFA]
  | cons ch rest =>
    simp only [readIdentifierFA]
    split
    · split <;> simp
    · simp

theorem readIdentifierFA_len (line col : Nat) (ch : Char) (rest : List Char)
    (hc : (isalpha ch || ch == '_' || ch == '$') = true) :
    (readIdentifierFA line col (ch :: rest)).2.1.length ≤ rest.length := by
  simp only [readIdentifierFA, hc, if_true]
  exact identBody_len rest [ch] (col + 1)

theorem readStringFA_ok (line col : Nat) (q : Char) (rest : List Char) (t : Token)
    (rem : List Char) (l c : Nat)
    (h : readStringFA line col q rest = .ok (t, rem, l, c)) :
    t.type = .String ∧ t.line = line ∧ t.col = col ∧ l = line ∧
      rem.length ≤ rest.length := by
  simp only [readStringFA] at h
  cases hr : runStr q line col .IN_STRING rest [q] (col + 1) with
  | error e => simp [hr] at h
  | ok v =>
    obtain ⟨b, r, c'⟩ := v
    simp only [hr, Except.ok.injEq, Prod.mk.injEq] at h
    obtain ⟨h1, h2, h3, -⟩ := h
    subst h1
    refine ⟨rfl, rfl, rfl, h3.symm, ?_⟩
    rw [← h2]
    exact runStr_len q line col rest .IN_STRING [q] (col + 1) b r c' hr

theorem readCommentFA_ok (line col : Nat) (rest : List Char) (t : Token)
    (rem : List Char) (l c : Nat)
    (h : readCommentFA line col rest = .ok (t, rem, l, c)) :
    t.type = .Comment ∧ t.col = col ∧ t.line = line + countNl t.lexeme ∧
      l = t.line ∧ rem.length ≤ rest.length := by
  simp only [readCommentFA] at h
  cases hr : runCom col .SLASH rest ['/'] line (col + 1) with
  | error e => simp [hr] at h
  | ok v =>
    obtain ⟨b, r, l', c'⟩ := v
    simp only [hr, Except.ok.injEq, Prod.mk.injEq] at h
    obtain ⟨h1, h2, h3, -⟩ := h
    have e := runCom_line_count rest .SLASH ['/'] line (col + 1) col b r l' c' hr
    have hlen := runCom_len rest .SLASH ['/'] line (col + 1) col b r l' c' hr
    subst h1
    refine ⟨rfl, rfl, ?_, h3.symm, ?_⟩
    · show l' = line + countNl b
      simp [countNl] at e
      omega
    · rw [← h2]
      exact hlen

theorem readOperatorFA_ok (line col : Nat) (ch : Char) (rest : List Char) (t : Token)
    (rem : List Char) (l c : Nat)
    (h : readOperatorFA line col ch rest = .ok (t, rem, l, c)) :
    t.type = .Operator ∧ t.line = line ∧ t.col = col ∧ l = line ∧
      rem.length ≤ rest.length := by
  simp only [readOperatorFA, opTok] at h
  repeat' split at h
  all_goals first
    | exact Except.noConfusion h
    | (simp only [Except.ok.injEq, Prod.mk.injEq] at h
       obtain ⟨h1, h2, h3, -⟩ := h
       subst h1
       subst h2
       subst h3
       refine ⟨rfl, rfl, rfl, rfl, ?_⟩
       simp <;> omega)

theorem dispatch_progress (b : Bool)
    (cont : List Char → Nat → Nat → List Token → List Token →
      Option (Except LexError (List Token × List Token)))
    (rem : List Char) (line col : Nat) (toks log : List Token)
    (hc : ∀ (rem2 : List Char) (l2 c2 : Nat) (toks2 log2 : List Token),
      rem2.length < rem.length → (cont rem2 l2 c2 toks2 log2).isSome = true) :
    (dispatch b cont rem line col toks log).isSome = true := by
  cases rem with
  | nil => simp [dispatch]
  | cons c rest =>
    simp only [dispatch]
    split_ifs with h1 h2 h3 h4 h5 h6 h7
    · simp only [afterTok]
      cases hr : readNumberFA line col (c :: rest) with
      | error e => simp
      | ok v =>
        obtain ⟨t, rem2, l2, c2⟩ := v
        apply hc
        have hcond : (isdigit c || (c == '+' || c == '-')) = true := by
          revert h1
          cases hpm : (c == '+' || c == '-') <;> simp
        have hlen := readNumberFA_len line col c rest t rem2 l2 c2 hcond hr
        simp only [List.length_cons]
        omega
    · simp only [afterTok]
      cases hr : readNumberFA line col (c :: rest) with
      | error e => simp
      | ok v =>
        obtain ⟨t, rem2, l2, c2⟩ := v
        apply hc
        have hcond : (isdigit c || (c == '+' || c == '-')) = true := by simp [h2]
        have hlen := readNumberFA_len line col c rest t rem2 l2 c2 hcond hr
        simp only [List.length_cons]
        omega
    · rcases hI : readIdentifierFA line col (c :: rest) with ⟨t, rem2, l2, c2⟩
      simp only [afterTok, hI]
      apply hc
      have hlen := readIdentifierFA_len line col c rest h3
      rw [hI] at hlen
      simp only [List.length_cons]
      simp at hlen
      omega
    · simp only [afterTok]
      cases hr : readStringFA line col c rest with
      | error e => simp
      | ok v =>
        obtain ⟨t, rem2, l2, c2⟩ := v
        apply hc
        have hlen := (readStringFA_ok line col c rest t rem2 l2 c2 hr).2.2.2.2
        simp only [List.length_cons]
        omega
    · simp only [afterTok]
      cases hr : readCommentFA line col rest with
      | error e => simp
      | ok v =>
        obtain ⟨t, rem2, l2, c2⟩ := v
        apply hc
        have hlen := (readCommentFA_ok line col rest t rem2 l2 c2 hr).2.2.2.2
        simp only [List.length_cons]
        omega
    · simp only [afterTok]
      cases hr : readOperatorFA line col c rest with
      | error e => simp
      | ok v =>
        obtain ⟨t, rem2, l2, c2⟩ := v
        apply hc
        have hlen := (readOperatorFA_ok line col c rest t rem2 l2 c2 hr).2.2.2.2
        simp only [List.length_cons]
        omega
    · simp only [afterTok, readPunctuation]
      apply hc
      simp
    · apply hc
      simp

theorem loopFA_progress (b : Bool) : ∀ (fuel : Nat) (rem : List Char) (line col : Nat)
    (toks log : List Token), rem.length < fuel →
    (loopFA b fuel rem line col toks log).isSome = true := by
  intro fuel
  induction fuel with
  | zero =>
    intro rem line col toks log h
    exact absurd h (Nat.not_lt_zero _)
  | succ fuel ih =>
    intro rem line col toks log h
    simp only [loopFA]
    rcases hs : skipWs rem line col with ⟨rem', l', c'⟩
    show (dispatch b (loopFA b fuel) rem' l' c' toks log).isSome = true
    apply dispatch_progress
    intro rem2 l2 c2 toks2 log2 hlt
    apply ih
    have hsk := skipWs_len rem line col
    rw [hs] at hsk
    simp only at hsk
    omega

theorem dispatch_log
    (cont : List Char → Nat → Nat → List Token → List Token →
      Option (Except LexError (List Token × List Token)))
    (rem : List Char) (line col : Nat) (toks log : List Token)
    (hinv : log = toks.filter traced)
    (hc : ∀ (rem2 : List Char) (l2 c2 : Nat) (toks2 log2 : List Token),
      log2 = toks2.filter traced →
      (match cont rem2 l2 c2 toks2 log2 with
       | some (.ok (ts, lg)) => lg = ts.filter traced
       | _ => True)) :
    (match dispatch true cont rem line col toks log with
     | some (.ok (ts, lg)) => lg = ts.filter traced
     | _ => True) := by
  cases rem with
  | nil =>
    simp only [dispatch]
    simp [List.filter_append, List.filter_cons, hinv, traced, eofTok]
  | cons c rest =>
    simp only [dispatch]
    split_ifs with h1 h2 h3 h4 h5 h6 h7
    · simp only [afterTok]
      cases hr : readNumberFA line col (c :: rest) with
      | error e => simp
      | ok v =>
        obtain ⟨t, rem2, l2, c2⟩ := v
        have ht : traced t = true := by
          have := (readNumberFA_ok line col (c :: rest) t rem2 l2 c2 hr).1
          simp [traced, this]
        apply hc
        simp [List.filter_append, List.filter_cons, hinv, ht]
    · simp only [afterTok]
      cases hr : readNumberFA line col (c :: rest) with
      | error e => simp
      | ok v =>
        obtain ⟨t, rem2, l2, c2⟩ := v
        have ht : traced t = true := by
          have := (readNumberFA_ok line col (c :: rest) t rem2 l2 c2 hr).1
          simp [traced, this]
        apply hc
        simp [List.filter_append, List.filter_cons, hinv, ht]
    · rcases hI : readIdentifierFA line col (c :: rest) with ⟨t, rem2, l2, c2⟩
      simp only [afterTok, hI]
      have hty := (readIdentifierFA_ok line col (c :: rest)).1
      rw [hI] at hty
      have hty' : t.type = .Keyword ∨ t.type = .Identifier := by simpa using hty
      have ht : traced t = true := by
        rcases hty' with hty' | hty' <;> simp [traced, hty']
      apply hc
      simp [List.filter_append, List.filter_cons, hinv, ht]
    · simp only [afterTok]
      cases hr : readStringFA line col c rest with
      | error e => simp
      | ok v =>
        obtain ⟨t, rem2, l2, c2⟩ := v
        have ht : traced t = true := by
          have := (readStringFA_ok line col c rest t rem2 l2 c2 hr).1
          simp [traced, this]
        apply hc
        simp [List.filter_append, List.filter_cons, hinv, ht]
    · simp only [afterTok]
      cases hr : readCommentFA line col rest with
      | error e => simp
      | ok v =>
        obtain ⟨t, rem2, l2, c2⟩ := v
        have ht : traced t = true := by
          have := (readCommentFA_ok line col rest t rem2 l2 c2 hr).1
          simp [traced, this]
        apply hc
        simp [List.filter_append, List.filter_cons, hinv, ht]
    · simp only [afterTok]
      cases hr : readOperatorFA line col c rest with
      | error e => simp
      | ok v =>
        obtain ⟨t, rem2, l2, c2⟩ := v
        have ht : traced t = true := by
          have := (readOperatorFA_ok line col c rest t rem2 l2 c2 hr).1
          simp [traced, this]
        apply hc
        simp [List.filter_append, List.filter_cons, hinv, ht]
    · simp only [afterTok, readPunctuation]
      apply hc
      simp [List.filter_append, List.filter_cons, hinv, traced]
    · exact hc rest line (col + 1) toks log hinv

theorem loopFA_log : ∀ (fuel : Nat) (rem : List Char) (line col : Nat)
    (toks log : List Token), log = toks.filter traced →
    (match loopFA true fuel rem line col toks log with
     | some (.ok (ts, lg)) => lg = ts.filter traced
     | _ => True) := by
  intro fuel
  induction fuel with
  | zero =>
    intro rem line col toks log hinv
    simp [loopFA]
  | succ fuel ih =>
    intro rem line col toks log hinv
    simp only [loopFA]
    rcases hs : skipWs rem line col with ⟨rem', l', c'⟩
    exact dispatch_log (loopFA true fuel) rem' l' c' toks log hinv ih

theorem dispatch_toks (b₁ b₂ : Bool)
    (cont₁ cont₂ : List Char → Nat → Nat → List Token → List Token →
      Option (Except LexError (List Token × List Token)))
    (rem : List Char) (line col : Nat) (toks log₁ log₂ : List Token)
    (hc : ∀ (rem2 : List Char) (l2 c2 : Nat) (toks2 lg₁ lg₂ : List Token),
      toksPart (cont₁ rem2 l2 c2 toks2 lg₁) = toksPart (cont₂ rem2 l2 c2 toks2 lg₂)) :
    toksPart (dispatch b₁ cont₁ rem line col toks log₁) =
      toksPart (dispatch b₂ cont₂ rem line col toks log₂) := by
  cases rem with
  | nil => simp [dispatch, toksPart, Except.map]
  | cons c rest =>
    simp only [dispatch]
    split_ifs with h1 h2 h3 h4 h5 h6 h7
    · simp only [afterTok]
      cases hr : readNumberFA line col (c :: rest) with
      | error e => simp [toksPart]
      | ok v =>
        obtain ⟨t, rem2, l2, c2⟩ := v
        exact hc _ _ _ _ _ _
    · simp only [afterTok]
      cases hr : readNumberFA line col (c :: rest) with
      | error e => simp [toksPart]
      | ok v =>
        obtain ⟨t, rem2, l2, c2⟩ := v
        exact hc _ _ _ _ _ _
    · rcases hI : readIdentifierFA line col (c :: rest) with ⟨t, rem2, l2, c2⟩
      simp only [afterTok, hI]
      exact hc _ _ _ _ _ _
    · simp only [afterTok]
      cases hr : readStringFA line col c rest with
      | error e => simp [toksPart]
      | ok v =>
        obtain ⟨t, rem2, l2, c2⟩ := v
        exact hc _ _ _ _ _ _
    · simp only [afterTok]
      cases hr : readCommentFA line col rest with
      | error e => simp [toksPart]
      | ok v =>
        obtain ⟨t, rem2, l2, c2⟩ := v
        exact hc _ _ _ _ _ _
    · simp only [afterTok]
      cases hr : readOperatorFA line col c rest with
      | error e => simp [toksPart]
      | ok v =>
        obtain ⟨t, rem2, l2, c2⟩ := v
        exact hc _ _ _ _ _ _
    · simp only [afterTok, readPunctuation]
      exact hc _ _ _ _ _ _
    · exact hc _ _ _ _ _ _

theorem loopFA_toks (b₁ b₂ : Bool) : ∀ (fuel : Nat) (rem : List Char) (line col : Nat)
    (toks log₁ log₂ : List Token),
    toksPart (loopFA b₁ fuel rem line col toks log₁) =
      toksPart (loopFA b₂ fuel rem line col toks log₂) := by
  intro fuel
  induction fuel with
  | zero => intro rem line col toks log₁ log₂; rfl
  | succ fuel ih =>
    intro rem line col toks log₁ log₂
    simp only [loopFA]
    rcases hs : skipWs rem line col with ⟨rem', l', c'⟩
    exact dispatch_toks b₁ b₂ (loopFA b₁ fuel) (loopFA b₂ fuel) rem' l' c' toks log₁ log₂
      (fun rem2 l2 c2 toks2 lg₁ lg₂ => ih rem2 l2 c2 toks2 lg₁ lg₂)


theorem runStr_content (q : Char) (line sc : Nat)
    (hq : (q == '"' || q.toNat == 39) = true) :
    ∀ (interior : List Char),
      interior.all (fun ch => !(ch == q) && !(ch == '\n') && !(ch.toNat == 92)) = true →
      ∀ (rest buf : List Char) (col : Nat),
        runStr q line sc .IN_STRING (interior ++ q :: rest) buf col =
          .ok (buf ++ (interior ++ [q]), rest, col + interior.length + 1) := by
  have hq92 : (q.toNat == 92) = false := by
    by_cases h : (q == '"') = true
    · have hqq : q = '"' := by simpa using h
      subst hqq
      decide
    · have h39 : (q.toNat == 39) = true := by simpa [h] using hq
      have hqn : q.toNat = 39 := by simpa using h39
      simp [hqn]
  intro interior
  induction interior with
  | nil =>
    intro hall rest buf col
    simp [runStr, hq92]
  | cons ch tl ih =>
    intro hall rest buf col
    simp only [List.all_cons, Bool.and_eq_true, Bool.not_eq_true'] at hall
    obtain ⟨⟨⟨hcq, hcn⟩, hcb⟩, htl⟩ := hall
    have htl' : tl.all (fun ch => !(ch == q) && !(ch == '\n') && !(ch.toNat == 92)) = true := by
      simp only [List.all_eq_true] at htl ⊢
      intro x hx
      have hpx := htl x hx
      simp only [Bool.and_eq_true, Bool.not_eq_true'] at hpx ⊢
      exact hpx
    have hstep : runStr q line sc .IN_STRING ((ch :: tl) ++ q :: rest) buf col =
        runStr q line sc .IN_STRING (tl ++ q :: rest) (buf ++ [ch]) (col + 1) := by
      simp only [List.cons_append, runStr]
      rw [if_neg (by simp [hcb]), if_neg (by simp [hcq]), if_neg (by simp [hcn])]
      rfl
    rw [hstep, ih htl' rest (buf ++ [ch]) (col + 1)]
    have harith : col + 1 + tl.length + 1 = col + (ch :: tl).length + 1 := by
      simp only [List.length_cons]
      omega
    rw [harith]
    simp [List.append_assoc]

theorem readStringFA_content (line col : Nat) (q : Char) (interior rest : List Char)
    (hq : (q == '"' || q.toNat == 39) = true)
    (hall : interior.all (fun ch => !(ch == q) && !(ch == '\n') && !(ch.toNat == 92)) = true) :
    readStringFA line col q (interior ++ q :: rest) =
      .ok (⟨.String, q :: (interior ++ [q]), line, col⟩, rest, line, col + interior.length + 2) := by
  simp only [readStringFA]
  rw [runStr_content q line col hq interior hall rest [q] (col + 1)]
  have harith : col + 1 + interior.length + 1 = col + interior.length + 2 := by omega
  rw [harith]
  simp [List.singleton_append]

/-! The claim theorems. -/

/-- Claim C1 counterexample: tokenizing `let x = "ok";` produces a String token
whose lexeme is `"ok"` with the surrounding quotes, which differs from the bare
interior `ok` that the claim requires. -/
theorem C1_counterexample :
    tokenizeTokens "let x = \"ok\";" =
      some (.ok [⟨.Keyword, "let".data, 1, 1⟩, ⟨.Identifier, ['x'], 1, 5⟩,
        ⟨.Operator, ['='], 1, 7⟩, ⟨.String, "\"ok\"".data, 1, 9⟩,
        ⟨.Punctuation, [';'], 1, 13⟩, ⟨.EndOfFile, [], 1, 14⟩]) ∧
    "\"ok\"".data ≠ "ok".data :=
  ⟨rfl, by decide⟩

/-- Claim C1 (corrected): the string recognizer returns the literal including
the surrounding quote characters, not the bare interior: tokenizing
`let x = "ok";` yields a String token with lexeme `"ok"` (quotes included),
and in general an accepted escape-free literal whose interior contains no
quote, newline or backslash produces the lexeme `quote :: interior ++ [quote]`
with the token at the starting line and column. -/
theorem C1_string_lexeme_includes_quotes :
    tokenizeTokens "let x = \"ok\";" =
      some (.ok [⟨.Keyword, "let".data, 1, 1⟩, ⟨.Identifier, ['x'], 1, 5⟩,
        ⟨.Operator, ['='], 1, 7⟩, ⟨.String, "\"ok\"".data, 1, 9⟩,
        ⟨.Punctuation, [';'], 1, 13⟩, ⟨.EndOfFile, [], 1, 14⟩]) ∧
    (∀ (line col : Nat) (q : Char) (interior rest : List Char),
      (q == '"' || q.toNat == 39) = true →
      interior.all (fun ch => !(ch == q) && !(ch == '\n') && !(ch.toNat == 92)) = true →
      readStringFA line col q (interior ++ q :: rest) =
        .ok (⟨.String, q :: (interior ++ [q]), line, col⟩, rest, line,
          col + interior.length + 2)) :=
  ⟨rfl, fun line col q interior rest hq hall =>
    readStringFA_content line col q interior rest hq hall⟩

/-- Claim C1 witness: the general part of the corrected claim applied to the
literal `"ok"` followed by `;`. -/
theorem C1_witness :
    ('"' == '"' || '"'.toNat == 39) = true ∧
    (['o', 'k'].all (fun ch => !(ch == '"') && !(ch == '\n') && !(ch.toNat == 92))) = true ∧
    readStringFA 1 9 '"' (['o', 'k'] ++ '"' :: [';']) =
      .ok (⟨.String, '"' :: (['o', 'k'] ++ ['"']), 1, 9⟩, [';'], 1,
        9 + ['o', 'k'].length + 2) :=
  ⟨by decide, by decide,
    C1_string_lexeme_includes_quotes.2 1 9 '"' ['o', 'k'] [';'] (by decide) (by decide)⟩

/-- Claim C2 (code bug): on the input `1.`, where the decimal dot is followed
by end of input rather than a digit, tokenize returns a Number token with
lexeme `1.` instead of failing with MalformedNumber; the rejection does fire
when a non-digit character follows the dot, as in `1.x`. -/
theorem C2_dot_eof_returns_number :
    tokenizeTokens "1." =
      some (.ok [⟨.Number, ['1', '.'], 1, 1⟩, ⟨.EndOfFile, [], 1, 3⟩]) ∧
    tokenizeTokens "1.x" = some (.error (.MalformedNumber 1 1)) :=
  ⟨rfl, rfl⟩

/-- Claim C3 (code bug): on the inputs `12e` and `12e+`, where the exponent
marker (or its sign) is followed by end of input, tokenize returns a Number
token instead of failing with MalformedExponent; the rejection does fire when
a non-digit character follows, as in `12ex`. -/
theorem C3_exponent_eof_returns_number :
    tokenizeTokens "12e" =
      some (.ok [⟨.Number, ['1', '2', 'e'], 1, 1⟩, ⟨.EndOfFile, [], 1, 4⟩]) ∧
    tokenizeTokens "12e+" =
      some (.ok [⟨.Number, ['1', '2', 'e', '+'], 1, 1⟩, ⟨.EndOfFile, [], 1, 5⟩]) ∧
    tokenizeTokens "12ex" = some (.error (.MalformedExponent 1 1)) :=
  ⟨rfl, rfl, rfl⟩

/-- Claim C4 counterexample: the Comment token for the two-line block comment
`/*a\nb*/` starting at line 1 records line 2, the line reached after consuming
the comment, not the line of the token's first character. -/
theorem C4_counterexample :
    tokenizeTokens "/*a\nb*/" =
      some (.ok [⟨.Comment, "/*a\nb*/".data, 2, 1⟩, ⟨.EndOfFile, [], 2, 4⟩]) ∧
    (⟨.Comment, "/*a\nb*/".data, 2, 1⟩ : Token).line ≠ 1 :=
  ⟨rfl, by decide⟩

/-- Claim C4 (corrected): every recognizer records the starting column of the
token's first character; the number, identifier, string, operator and
punctuation recognizers also record the line of the first character, but the
comment recognizer records the starting line plus the number of newlines
consumed inside the comment, i.e. the line of the comment's last character. -/
theorem C4_token_positions :
    (∀ (line col : Nat) (input : List Char) (t : Token) (rem : List Char) (l c : Nat),
      readNumberFA line col input = .ok (t, rem, l, c) → t.line = line ∧ t.col = col) ∧
    (∀ (line col : Nat) (input : List Char),
      (readIdentifierFA line col input).1.line = line ∧
      (readIdentifierFA line col input).1.col = col) ∧
    (∀ (line col : Nat) (q : Char) (rest : List Char) (t : Token) (rem : List Char) (l c : Nat),
      readStringFA line col q rest = .ok (t, rem, l, c) → t.line = line ∧ t.col = col) ∧
    (∀ (line col : Nat) (ch : Char) (rest : List Char) (t : Token) (rem : List Char) (l c : Nat),
      readOperatorFA line col ch rest = .ok (t, rem, l, c) → t.line = line ∧ t.col = col) ∧
    (∀ (line col : Nat) (ch : Char) (rest : List Char),
      (readPunctuation line col ch rest).1.line = line ∧
      (readPunctuation line col ch rest).1.col = col) ∧
    (∀ (line col : Nat) (rest : List Char) (t : Token) (rem : List Char) (l c : Nat),
      readCommentFA line col rest = .ok (t, rem, l, c) →
      t.col = col ∧ t.line = line + countNl t.lexeme) := by
  refine ⟨?_, ?_, ?_, ?_, ?_, ?_⟩
  · intro line col input t rem l c h
    exact ⟨(readNumberFA_ok line col input t rem l c h).2.1,
      (readNumberFA_ok line col input t rem l c h).2.2.1⟩
  · intro line col input
    exact ⟨(readIdentifierFA_ok line col input).2.1,
      (readIdentifierFA_ok line col input).2.2.1⟩
  · intro line col q rest t rem l c h
    exact ⟨(readStringFA_ok line col q rest t rem l c h).2.1,
      (readStringFA_ok line col q rest t rem l c h).2.2.1⟩
  · intro line col ch rest t rem l c h
    exact ⟨(readOperatorFA_ok line col ch rest t rem l c h).2.1,
      (readOperatorFA_ok line col ch rest t rem l c h).2.2.1⟩
  · intro line col ch rest
    exact ⟨rfl, rfl⟩
  · intro line col rest t rem l c h
    exact ⟨(readCommentFA_ok line col rest t rem l c h).2.1,
      (readCommentFA_ok line col rest t rem l c h).2.2.1⟩

/-- Claim C4 witness: the corrected claim applied to the number literal `7`
and to the comment `/*a\nb*/` (the latter records the end line 2 = 1 + 1). -/
theorem C4_witness :
    ((⟨.Number, ['7'], 1, 1⟩ : Token).line = 1 ∧ (⟨.Number, ['7'], 1, 1⟩ : Token).col = 1) ∧
    ((⟨.Comment, "/*a\nb*/".data, 2, 1⟩ : Token).col = 1 ∧
      (⟨.Comment, "/*a\nb*/".data, 2, 1⟩ : Token).line = 1 + countNl "/*a\nb*/".data) :=
  ⟨C4_token_positions.1 1 1 ['7'] ⟨.Number, ['7'], 1, 1⟩ [] 1 2 rfl,
   C4_token_positions.2.2.2.2.2 1 1 "*a\nb*/".data ⟨.Comment, "/*a\nb*/".data, 2, 1⟩ [] 2 4 rfl⟩

/-- Claim C5 counterexample: with the trace flag set, tokenizing `;` produces
two tokens (Punctuation and EndOfFile) but an empty trace log, so the hook is
not invoked once per produced token. -/
theorem C5_counterexample :
    tokenize ";" true =
      some (.ok ([⟨.Punctuation, [';'], 1, 1⟩, ⟨.EndOfFile, [], 1, 2⟩], [])) ∧
    ([] : List Token) ≠ [⟨.Punctuation, [';'], 1, 1⟩, ⟨.EndOfFile, [], 1, 2⟩] :=
  ⟨rfl, by decide⟩

/-- Claim C5 (corrected): with the trace flag set, the reporting hook receives
exactly the produced tokens whose kind is neither Punctuation nor EndOfFile,
in production order; Punctuation tokens and the final EndOfFile token are not
reported. -/
theorem C5_trace_log (src : String) :
    (match tokenize src true with
     | some (.ok (ts, lg)) => lg = ts.filter traced
     | _ => True) :=
  loopFA_log (src.data.length + 1) src.data 1 1 [] [] rfl

/-- Claim C6: a block comment whose body spans three source lines leaves the
following token reported at the starting line plus 2, and each newline
consumed in the MULTI or STAR state increments the line counter and resets
the column to 1. -/
theorem C6_comment_line_tracking :
    tokenizeTokens "/*a\nb\nc*/x" =
      some (.ok [⟨.Comment, "/*a\nb\nc*/".data, 3, 1⟩, ⟨.Identifier, ['x'], 3, 4⟩,
        ⟨.EndOfFile, [], 3, 5⟩]) ∧
    (∀ (rest buf : List Char) (line col startCol : Nat),
      runCom startCol .MULTI ('\n' :: rest) buf line col =
        runCom startCol .MULTI rest (buf ++ ['\n']) (line + 1) 1) ∧
    (∀ (rest buf : List Char) (line col startCol : Nat),
      runCom startCol .STAR ('\n' :: rest) buf line col =
        runCom startCol .MULTI rest (buf ++ ['\n']) (line + 1) 1) :=
  ⟨rfl, fun _ _ _ _ _ => rfl, fun _ _ _ _ _ => rfl⟩

/-- Claim C7: the operator recognizer obeys maximal munch: `>>>=` is a single
Operator token followed by EndOfFile, after a single `>` the recognizer
extends through `>>` and `>>>` to `>>>=` whenever the following characters
allow it, and `>=` is produced when `=` directly follows a single `>`. -/
theorem C7_operator_maximal_munch :
    tokenizeTokens ">>>=" =
      some (.ok [⟨.Operator, ">>>=".data, 1, 1⟩, ⟨.EndOfFile, [], 1, 5⟩]) ∧
    (∀ (r : List Char) (line col : Nat),
      readOperatorFA line col '>' ('>' :: '>' :: '=' :: r) =
        .ok (⟨.Operator, ">>>=".data, line, col⟩, r, line, col + 4)) ∧
    (∀ (r : List Char) (line col : Nat),
      readOperatorFA line col '>' ('=' :: r) =
        .ok (⟨.Operator, ">=".data, line, col⟩, r, line, col + 2)) :=
  ⟨rfl, fun _ _ _ => rfl, fun _ _ _ => rfl⟩

/-- Claim C8: tokenize is deterministic and free of hidden state: its token
sequence does not depend on the trace flag, and invoking it twice on the same
source yields the identical result. -/
theorem C8_tokenize_deterministic (src : String) (b₁ b₂ : Bool) :
    toksPart (tokenize src b₁) = toksPart (tokenize src b₂) ∧
    tokenize src b₁ = tokenize src b₁ :=
  ⟨loopFA_toks b₁ b₂ (src.data.length + 1) src.data 1 1 [] [] [], rfl⟩

/-- Claim C9: tokenize terminates on every finite input: the driver loop with
fuel exceeding the input length never runs out, because the whitespace skip
never lengthens the input and every dispatched recognizer consumes at least
one character. -/
theorem C9_tokenize_terminates (src : String) (b : Bool) :
    (tokenize src b).isSome = true :=
  loopFA_progress b (src.data.length + 1) src.data 1 1 [] [] (Nat.lt_succ_self _)

/-- Claim C10: when a plus or minus sign is directly followed by a digit the
driver dispatches to the number recognizer, and the sign is consumed as part
of the Number lexeme: tokenizing `1+2` yields Number `1`, Number `+2` and
EndOfFile, with no Operator token in between. -/
theorem C10_sign_dispatch :
    tokenizeTokens "1+2" =
      some (.ok [⟨.Number, ['1'], 1, 1⟩, ⟨.Number, ['+', '2'], 1, 2⟩,
        ⟨.EndOfFile, [], 1, 4⟩]) ∧
    (∀ (b : Bool)
      (cont : List Char → Nat → Nat → List Token → List Token →
        Option (Except LexError (List Token × List Token)))
      (d : Char) (r : List Char) (line col : Nat) (toks log : List Token),
      isdigit d = true →
      dispatch b cont ('+' :: d :: r) line col toks log =
        afterTok b true cont (readNumberFA line col ('+' :: d :: r)) toks log ∧
      dispatch b cont ('-' :: d :: r) line col toks log =
        afterTok b true cont (readNumberFA line col ('-' :: d :: r)) toks log) ∧
    (∀ (s d : Char) (r : List Char) (line col : Nat) (t : Token) (rem : List Char) (l c : Nat),
      (s == '+' || s == '-') = true →
      readNumberFA line col (s :: d :: r) = .ok (t, rem, l, c) →
      t.lexeme.head? = some s) := by
  refine ⟨rfl, ?_, ?_⟩
  · intro b cont d r line col toks log h
    constructor
    · simp [dispatch, firstIsDigit, h]
    · simp [dispatch, firstIsDigit, h]
  · intro s d r line col t rem l c hs h
    exact readNumberFA_sign line col s d r t rem l c hs h

/-- Claim C10 witness: the dispatch equation and the sign-in-lexeme fact
applied to the concrete input `+2`. -/
theorem C10_witness :
    isdigit '2' = true ∧
    dispatch true (fun _ _ _ _ _ => none) ('+' :: '2' :: []) 1 1 [] [] =
      afterTok true true (fun _ _ _ _ _ => none)
        (readNumberFA 1 1 ('+' :: '2' :: [])) [] [] ∧
    ('+' == '+' || '+' == '-') = true ∧
    (⟨.Number, ['+', '2'], 1, 1⟩ : Token).lexeme.head? = some '+' :=
  ⟨by decide,
   (C10_sign_dispatch.2.1 true (fun _ _ _ _ _ => none) '2' [] 1 1 [] [] (by decide)).1,
   by decide,
   C10_sign_dispatch.2.2 '+' '2' [] 1 1 ⟨.Number, ['+', '2'], 1, 1⟩ [] 1 3 (by decide) rfl⟩


end JSLexer
